import Mathlib

/-!
Shallow embedding of the reminder-microservice core (Rust sources
`src/models.rs`, `src/storage.rs`, `src/main.rs`) and proofs of the
specification claims about it.

Modelling conventions:
* `chrono::DateTime<Utc>` timestamps and `chrono::Duration` values are
  modelled as `Int` counts of seconds (`Duration::days 1 = 86400 s`,
  `Duration::weeks 1 = 604800 s`, `Duration::minutes m = 60*m s`).
* Rust strings are modelled as `List Char`; the string operations used by
  the source (`to_lowercase`, `ends_with`, `trim_end_matches`, `trim`,
  `parse::<i64>`) are reproduced below.  Unicode case mapping beyond the
  ASCII range is out of scope: inputs of interest are ASCII.
* The snapshot write (`fs::write`) is I/O; its success is an explicit
  boolean oracle parameter where a claim depends on it.
* The shared store behind `RwLock` is modelled as an explicit
  `List Reminder` threaded through the operations; each Rust method holds
  the lock for its whole body, so one method call is one atomic transition.
-/

deriving instance DecidableEq for Except

namespace ReminderSvc

/-! ### Rust string primitives -/

/-- ASCII case folding, the fragment of Rust `to_lowercase` relevant here. -/
def asciiToLower (c : Char) : Char :=
  if 'A' ≤ c ∧ c ≤ 'Z' then Char.ofNat (c.toNat + 32) else c

/-- `str::to_lowercase`, restricted to ASCII case mapping. -/
def lowerStr (s : List Char) : List Char := s.map asciiToLower

/-- ASCII fragment of Rust `char::is_whitespace`. -/
def isRustWs (c : Char) : Bool :=
  c = ' ' || c = '\t' || c = '\n' || c = '\r' || c = '\x0b' || c = '\x0c'

/-- `str::trim`: drop leading and trailing whitespace. -/
def trimChars (s : List Char) : List Char :=
  ((s.dropWhile isRustWs).reverse.dropWhile isRustWs).reverse

/-- The pattern `"minutes"` as a character list. -/
def minutesChars : List Char := ['m', 'i', 'n', 'u', 't', 'e', 's']

/-- Helper for `trim_end_matches "minutes"`: repeatedly drop the reversed
pattern from the front of the reversed string. -/
def trimEndMinutesRev : List Char → List Char
  | 's' :: 'e' :: 't' :: 'u' :: 'n' :: 'i' :: 'm' :: rest => trimEndMinutesRev rest
  | s => s

/-- `str::trim_end_matches("minutes")`: remove every trailing occurrence of
the literal pattern `"minutes"`. -/
def trimEndMinutes (s : List Char) : List Char :=
  (trimEndMinutesRev s.reverse).reverse

def digitVal (c : Char) : Option Nat :=
  if '0' ≤ c ∧ c ≤ '9' then some (c.toNat - 48) else none

def parseDigits : List Char → Nat → Option Nat
  | [], acc => some acc
  | c :: cs, acc =>
    match digitVal c with
    | some d => parseDigits cs (acc * 10 + d)
    | none => none

/-- Unsigned decimal parse: at least one digit, digits only. -/
def parseNat : List Char → Option Nat
  | [] => none
  | c :: cs => parseDigits (c :: cs) 0

/-- `i64::MAX`. -/
def maxI64 : Nat := 9223372036854775807

/-- `str::parse::<i64>`: optional sign, one or more ASCII digits, value in
the `i64` range. -/
def parseI64 (s : List Char) : Option Int :=
  match s with
  | [] => none
  | c :: rest =>
    if c = '+' then
      (parseNat rest).bind fun n => if n ≤ maxI64 then some (n : Int) else none
    else if c = '-' then
      (parseNat rest).bind fun n =>
        if n ≤ maxI64 + 1 then some (-(n : Int)) else none
    else
      (parseNat (c :: rest)).bind fun n =>
        if n ≤ maxI64 then some (n : Int) else none

/-! ### The reminder entity (`src/models.rs`) -/

structure Reminder where
  id : String
  message : String
  due_time : Int
  username : Option String
  sent : Bool
  created_at : Int
  recurrence : Option String
deriving DecidableEq

/-- The minute count extracted by the `custom` arm of
`Reminder::calculate_next_occurrence` (`models.rs` lines 37-42): if the
lowercased recurrence ends in `"minutes"`, strip that suffix repeatedly,
trim, and parse; otherwise parse the whole string. -/
def customMinutes (custom : List Char) : Option Int :=
  if minutesChars.isSuffixOf custom then
    parseI64 (trimChars (trimEndMinutes custom))
  else
    parseI64 custom

/-- The interval computed by `calculate_next_occurrence` (`models.rs`
lines 34-53), in seconds; `none` when the arm guard fails, the parse
fails, or the safeguard rejects a non-positive minute count. -/
def parseIntervalSecs (custom : List Char) : Option Int :=
  if custom = "daily".data then some 86400
  else if custom = "weekly".data then some 604800
  else if minutesChars.isSuffixOf custom || (parseI64 custom).isSome then
    match customMinutes custom with
    | some m => if m ≤ 0 then none else some (60 * m)
    | none => none
  else none

/-- The catch-up loop of `calculate_next_occurrence` (`models.rs` lines
56-59): `while next_time <= now { next_time += interval }`.  The `0 < i`
conjunct in the guard is only there to make the function total; every call
site passes a positive interval (the source would diverge otherwise, which
is exactly what the `minutes <= 0` safeguard prevents — claim C5). -/
def catchUp (i now t : Int) : Int :=
  if 0 < i ∧ t ≤ now then catchUp i now (t + i) else t
termination_by (now + i - t).toNat
decreasing_by omega

/-- `Reminder::calculate_next_occurrence` (`models.rs` lines 29-62), with
the `Utc::now()` read made an explicit `now` parameter. -/
def calculate_next_occurrence (r : Reminder) (now : Int) : Option Int :=
  match r.recurrence with
  | none => none
  | some s =>
    match parseIntervalSecs (lowerStr s.data) with
    | none => none
    | some i => some (catchUp i now (r.due_time + i))

/-! ### The reminder store (`src/storage.rs`) -/

inductive StoreError where
  | emptyMessage
  | invalidRecurrence
  | nonPositiveInterval
  | persistence
deriving DecidableEq

/-- `ReminderStorage::add_reminder` (`storage.rs` lines 30-35).  The push
happens before `save_to_disk`; `saveOk` is the outcome of the snapshot
write, and on failure the in-memory append is not rolled back. -/
def add_reminder (st : List Reminder) (r : Reminder) (saveOk : Bool) :
    Except StoreError Reminder × List Reminder :=
  let st' := st ++ [r]
  if saveOk then (Except.ok r, st') else (Except.error StoreError.persistence, st')

/-- Ascending comparison on `due_time` used by the `sort_by` call. -/
def dueLe (a b : Reminder) : Prop := a.due_time ≤ b.due_time

instance : DecidableRel dueLe := fun a b => inferInstanceAs (Decidable (a.due_time ≤ b.due_time))

instance : IsTotal Reminder dueLe := ⟨fun a b => Int.le_total a.due_time b.due_time⟩

instance : IsTrans Reminder dueLe := ⟨fun _ _ _ h h' => Int.le_trans h h'⟩

/-- `ReminderStorage::get_upcoming_reminders` (`storage.rs` lines 37-49):
filter `!sent && due_time > now`, then sort ascending by `due_time`
(Rust `sort_by` is a stable sort; so is `insertionSort`). -/
def get_upcoming_reminders (st : List Reminder) (now : Int) : List Reminder :=
  List.insertionSort dueLe (st.filter fun r => !r.sent && decide (now < r.due_time))

/-- `ReminderStorage::get_due_reminders` (`storage.rs` lines 51-60). -/
def get_due_reminders (st : List Reminder) (now : Int) : List Reminder :=
  st.filter fun r => !r.sent && decide (r.due_time ≤ now)

/-- `ReminderStorage::mark_as_sent` (`storage.rs` lines 62-71):
`iter_mut().find` mutates the first reminder whose id matches; absent id is
a silent no-op.  The in-memory mutation precedes the snapshot write, so it
stands regardless of persistence outcome. -/
def mark_as_sent : List Reminder → String → List Reminder
  | [], _ => []
  | r :: rest, i =>
    if r.id = i then { r with sent := true } :: rest
    else r :: mark_as_sent rest i

/-- `ReminderStorage::reschedule_reminder` (`storage.rs` lines 73-83). -/
def reschedule_reminder : List Reminder → String → Int → List Reminder
  | [], _, _ => []
  | r :: rest, i, t =>
    if r.id = i then { r with due_time := t, sent := false } :: rest
    else r :: reschedule_reminder rest i t

/-! ### Ingestion (`src/main.rs`, `create_reminder`) -/

structure CreateReminderRequest where
  message : String
  due_time : Int
  username : Option String
  recurrence : Option String

/-- The recurrence validation of `create_reminder` (`main.rs` lines
76-114): `daily`/`weekly` case-insensitively; else a bare `i64` that must
be positive; else, if the lowercased string ends with `"minutes"`, the
original string with trailing literal `"minutes"` stripped and trimmed
must parse to a positive `i64`. -/
def validateRecurrence (s : List Char) : Except StoreError Unit :=
  let low := lowerStr s
  if low = "daily".data ∨ low = "weekly".data then Except.ok ()
  else
    match parseI64 s with
    | some m =>
      if m ≤ 0 then Except.error StoreError.nonPositiveInterval else Except.ok ()
    | none =>
      if minutesChars.isSuffixOf low then
        match parseI64 (trimChars (trimEndMinutes s)) with
        | some m =>
          if 0 < m then Except.ok () else Except.error StoreError.nonPositiveInterval
        | none => Except.error StoreError.invalidRecurrence
      else Except.error StoreError.invalidRecurrence

/-- `create_reminder` (`main.rs` lines 54-141), after the `due_time`
string has been parsed (the RFC3339 layer is out of scope): empty-message
check, recurrence validation, then `Reminder::new` + `add_reminder`.
`newId`/`createdAt` stand for `Uuid::new_v4()`/`Utc::now()`. -/
def create_reminder (st : List Reminder) (req : CreateReminderRequest)
    (newId : String) (createdAt : Int) (saveOk : Bool) :
    Except StoreError Reminder × List Reminder :=
  if trimChars req.message.data = [] then (Except.error StoreError.emptyMessage, st)
  else
    match req.recurrence with
    | none =>
      add_reminder st
        ⟨newId, req.message, req.due_time, req.username, false, createdAt, none⟩ saveOk
    | some s =>
      match validateRecurrence s.data with
      | Except.error e => (Except.error e, st)
      | Except.ok _ =>
        add_reminder st
          ⟨newId, req.message, req.due_time, req.username, false, createdAt, some s⟩ saveOk

/-! ### The due-reminder scanner (`src/main.rs`, `notification_service`) -/

/-- One due reminder's post-delivery transition (`main.rs` lines 186-200):
reschedule when a next occurrence exists, otherwise mark sent. -/
def scanStep (now : Int) (acc : List Reminder) (r : Reminder) : List Reminder :=
  match calculate_next_occurrence r now with
  | some t => reschedule_reminder acc r.id t
  | none => mark_as_sent acc r.id

/-- One scanner tick (`main.rs` lines 163-208): snapshot the due list,
then apply each post-delivery transition to the shared store. -/
def scanTick (st : List Reminder) (now : Int) : List Reminder :=
  (get_due_reminders st now).foldl (scanStep now) st

/-! ### Snapshot round trip (claim C9) -/

/-- A JSON-like value tree; the concrete text layer of `serde_json` is out
of scope, the field structure is what the round-trip claim is about. -/
inductive JsonVal where
  | jnull : JsonVal
  | jbool : Bool → JsonVal
  | jint : Int → JsonVal
  | jstr : String → JsonVal
  | jarr : List JsonVal → JsonVal
  | jobj : List (String × JsonVal) → JsonVal

def encodeOptStr : Option String → JsonVal
  | none => JsonVal.jnull
  | some s => JsonVal.jstr s

def decodeOptStr : JsonVal → Option (Option String)
  | JsonVal.jnull => some none
  | JsonVal.jstr s => some (some s)
  | _ => none

/-- Modelled from the spec: the serde-derived `Serialize` instance for
`Reminder` is generated code not present under `src/`; §6 of the spec
fixes the record layout (id, message, due_time, username, sent,
created_at, recurrence). -/
def encodeReminder (r : Reminder) : JsonVal :=
  JsonVal.jobj
    [("id", JsonVal.jstr r.id),
     ("message", JsonVal.jstr r.message),
     ("due_time", JsonVal.jint r.due_time),
     ("username", encodeOptStr r.username),
     ("sent", JsonVal.jbool r.sent),
     ("created_at", JsonVal.jint r.created_at),
     ("recurrence", encodeOptStr r.recurrence)]

/-- Modelled from the spec: the serde-derived `Deserialize` instance for
`Reminder`, field-by-field on the layout of §6. -/
def decodeReminder : JsonVal → Option Reminder
  | JsonVal.jobj
      [("id", JsonVal.jstr id),
       ("message", JsonVal.jstr message),
       ("due_time", JsonVal.jint due_time),
       ("username", u),
       ("sent", JsonVal.jbool sent),
       ("created_at", JsonVal.jint created_at),
       ("recurrence", rc)] =>
    match decodeOptStr u, decodeOptStr rc with
    | some username, some recurrence =>
      some ⟨id, message, due_time, username, sent, created_at, recurrence⟩
    | _, _ => none
  | _ => none

def decodeReminders : List JsonVal → Option (List Reminder)
  | [] => some []
  | j :: js =>
    match decodeReminder j, decodeReminders js with
    | some r, some rs => some (r :: rs)
    | _, _ => none

/-- `ReminderStorage::save_to_disk` (`storage.rs` lines 90-96), with the
text layer abstracted to the `JsonVal` tree. -/
def save_to_disk (rs : List Reminder) : JsonVal :=
  JsonVal.jarr (rs.map encodeReminder)

/-- `ReminderStorage::new` (`storage.rs` lines 14-28): absent file gives
the empty collection, otherwise the snapshot is parsed. -/
def storage_new (disk : Option JsonVal) : Option (List Reminder) :=
  match disk with
  | none => some []
  | some (JsonVal.jarr js) => decodeReminders js
  | some _ => none

/-! ### Helper lemmas: the catch-up loop and the interval parse -/

/-- The catch-up loop lands on `t + n*i` for the least `n` that makes the
result strictly future, provided the interval is positive. -/
theorem catchUp_spec (i now : Int) (hi : 0 < i) : ∀ t : Int,
    ∃ n : Nat, catchUp i now t = t + n * i ∧ now < t + n * i ∧
      ∀ m : Nat, now < t + (m : Int) * i → n ≤ m := by
  intro t
  induction t using catchUp.induct i now with
  | case1 t h ih =>
    obtain ⟨n, hEq, hGt, hMin⟩ := ih
    refine ⟨n + 1, ?_, ?_, ?_⟩
    · rw [catchUp, if_pos h, hEq]
      push_cast
      ring
    · push_cast
      linarith
    · intro m hm
      match m with
      | 0 =>
        simp at hm
        exact absurd hm (by omega)
      | Nat.succ m' =>
        have hlt : now < t + i + (m' : Int) * i := by push_cast at hm ⊢; linarith
        have := hMin m' hlt
        omega
  | case2 t h =>
    refine ⟨0, ?_, ?_, fun m _ => Nat.zero_le m⟩
    · rw [catchUp, if_neg h]
      simp
    · simp
      omega

/-- Every interval `parseIntervalSecs` produces is positive. -/
theorem parseIntervalSecs_pos {c : List Char} {i : Int}
    (h : parseIntervalSecs c = some i) : 0 < i := by
  unfold parseIntervalSecs at h
  split_ifs at h with h1 h2 h3
  · simp at h
    omega
  · simp at h
    omega
  · cases hm : customMinutes c with
    | none =>
      rw [hm] at h
      cases h
    | some m =>
      rw [hm] at h
      dsimp only at h
      by_cases hle : m ≤ 0
      · rw [if_pos hle] at h
        cases h
      · rw [if_neg hle] at h
        simp at h
        omega

/-- The `custom` arm maps a positive minute count `m` to `60*m` seconds. -/
theorem parseIntervalSecs_minutes {c : List Char} {m : Int}
    (h1 : c ≠ "daily".data) (h2 : c ≠ "weekly".data)
    (hm : customMinutes c = some m) (hpos : 0 < m) :
    parseIntervalSecs c = some (60 * m) := by
  have hguard : (minutesChars.isSuffixOf c || (parseI64 c).isSome) = true := by
    unfold customMinutes at hm
    by_cases hsuf : minutesChars.isSuffixOf c
    · simp [hsuf]
    · rw [if_neg hsuf] at hm
      simp [hm]
  unfold parseIntervalSecs
  rw [if_neg h1, if_neg h2, if_pos hguard, hm]
  dsimp only
  rw [if_neg (by omega : ¬m ≤ 0)]

/-- Unfolding of `calculate_next_occurrence` on a recurrence that parses,
via `catchUp_spec`: the result is `due_time + k*interval` for the least
positive `k` that is strictly beyond `now`. -/
theorem calc_next_char (r : Reminder) (now : Int) {s : String} {i : Int}
    (hs : r.recurrence = some s) (hp : parseIntervalSecs (lowerStr s.data) = some i) :
    ∃ k : Nat, 0 < k ∧ calculate_next_occurrence r now = some (r.due_time + (k : Int) * i) ∧
      now < r.due_time + (k : Int) * i ∧
      ∀ j : Nat, 0 < j → now < r.due_time + (j : Int) * i → k ≤ j := by
  have hi : 0 < i := parseIntervalSecs_pos hp
  obtain ⟨n, hEq, hGt, hMin⟩ := catchUp_spec i now hi (r.due_time + i)
  refine ⟨n + 1, Nat.succ_pos n, ?_, ?_, ?_⟩
  · simp only [calculate_next_occurrence, hs, hp, hEq]
    congr 1
    push_cast
    ring
  · push_cast
    linarith
  · intro j hj hlt
    match j with
    | 0 => exact absurd hj (by omega)
    | Nat.succ j' =>
      have hlt' : now < r.due_time + i + (j' : Int) * i := by push_cast at hlt ⊢; linarith
      have := hMin j' hlt'
      omega

/-! ### Claim theorems -/

/-- C1: `calculate_next_occurrence` returns `none` when recurrence is
absent; `daily` maps to 24 h, `weekly` to 7×24 h, a parsed count of
`N > 0` minutes to `60*N` seconds; and on any recurrence whose interval
parses, it returns `due_time + k*interval` for the smallest positive `k`
that lands strictly after `now`. -/
theorem c1_calculate_next_occurrence (r : Reminder) (now : Int) :
    (r.recurrence = none → calculate_next_occurrence r now = none) ∧
    parseIntervalSecs (lowerStr "daily".data) = some 86400 ∧
    parseIntervalSecs (lowerStr "weekly".data) = some 604800 ∧
    (∀ c m, c ≠ "daily".data → c ≠ "weekly".data → customMinutes c = some m → 0 < m →
      parseIntervalSecs c = some (60 * m)) ∧
    ∀ s i, r.recurrence = some s → parseIntervalSecs (lowerStr s.data) = some i →
      ∃ k : Nat, 0 < k ∧ calculate_next_occurrence r now = some (r.due_time + (k : Int) * i) ∧
        now < r.due_time + (k : Int) * i ∧
        ∀ j : Nat, 0 < j → now < r.due_time + (j : Int) * i → k ≤ j := by
  refine ⟨?_, by decide, by decide, ?_, ?_⟩
  · intro h
    simp only [calculate_next_occurrence, h]
  · intro c m h1 h2 hm hpos
    exact parseIntervalSecs_minutes h1 h2 hm hpos
  · intro s i hs hp
    exact calc_next_char r now hs hp

/-- Witness for C1: a daily reminder due at 0 evaluated at now = 100000. -/
theorem c1_witness :
    ∃ k : Nat, 0 < k ∧
      calculate_next_occurrence (Reminder.mk "a" "m" 0 none false 0 (some "daily")) 100000 =
        some (0 + (k : Int) * 86400) ∧
      (100000 : Int) < 0 + (k : Int) * 86400 ∧
      ∀ j : Nat, 0 < j → (100000 : Int) < 0 + (j : Int) * 86400 → k ≤ j :=
  (c1_calculate_next_occurrence (Reminder.mk "a" "m" 0 none false 0 (some "daily"))
    100000).2.2.2.2 "daily" 86400 rfl (by decide)

/-- C5: any parsed minute count `≤ 0` yields `none` instead of looping,
and on every positive interval the catch-up loop performs only finitely
many additions (the result is `due_time + k*interval` for a finite `k`). -/
theorem c5_no_divergence (r : Reminder) (now : Int) :
    (∀ s m, r.recurrence = some s → customMinutes (lowerStr s.data) = some m → m ≤ 0 →
      calculate_next_occurrence r now = none) ∧
    ∀ s i, r.recurrence = some s → parseIntervalSecs (lowerStr s.data) = some i →
      0 < i ∧ ∃ k : Nat, 0 < k ∧
        calculate_next_occurrence r now = some (r.due_time + (k : Int) * i) ∧
        now < r.due_time + (k : Int) * i := by
  constructor
  · intro s m hs hm hle
    have hd : lowerStr s.data ≠ "daily".data := by
      intro he
      rw [he, show customMinutes ("daily".data) = none by decide] at hm
      cases hm
    have hw : lowerStr s.data ≠ "weekly".data := by
      intro he
      rw [he, show customMinutes ("weekly".data) = none by decide] at hm
      cases hm
    have hnone : parseIntervalSecs (lowerStr s.data) = none := by
      unfold parseIntervalSecs
      rw [if_neg hd, if_neg hw]
      by_cases hg : (minutesChars.isSuffixOf (lowerStr s.data)
          || (parseI64 (lowerStr s.data)).isSome) = true
      · rw [if_pos hg, hm]
        dsimp only
        rw [if_pos hle]
      · rw [if_neg hg]
    simp only [calculate_next_occurrence, hs, hnone]
  · intro s i hs hp
    obtain ⟨k, hk, hEq, hGt, _⟩ := calc_next_char r now hs hp
    exact ⟨parseIntervalSecs_pos hp, k, hk, hEq, hGt⟩

/-- Witness for C5: recurrence `"0 minutes"` parses to 0 and is refused. -/
theorem c5_witness :
    calculate_next_occurrence (Reminder.mk "a" "m" 0 none false 0 (some "0 minutes")) 5 = none :=
  (c5_no_divergence (Reminder.mk "a" "m" 0 none false 0 (some "0 minutes")) 5).1
    "0 minutes" 0 rfl (by decide) (by decide)

/-- C6: when the snapshot write fails, `add_reminder` surfaces the
persistence error but the in-memory state is the post-append state. -/
theorem c6_add_no_rollback (st : List Reminder) (r : Reminder) :
    add_reminder st r false = (Except.error StoreError.persistence, st ++ [r]) ∧
    r ∈ (add_reminder st r false).2 := by
  exact ⟨rfl, by simp [add_reminder]⟩

/-- C8: `mark_as_sent` and `reschedule_reminder` are idempotent on the
collection. -/
theorem c8_idempotent (st : List Reminder) (i : String) (t : Int) :
    mark_as_sent (mark_as_sent st i) i = mark_as_sent st i ∧
    reschedule_reminder (reschedule_reminder st i t) i t = reschedule_reminder st i t := by
  constructor
  · induction st with
    | nil => rfl
    | cons r rest ih =>
      by_cases h : r.id = i
      · simp [mark_as_sent, h]
      · simp [mark_as_sent, h, ih]
  · induction st with
    | nil => rfl
    | cons r rest ih =>
      by_cases h : r.id = i
      · simp [reschedule_reminder, h]
      · simp [reschedule_reminder, h, ih]

/-- Membership in `get_due_reminders`, unfolded. -/
theorem mem_get_due (st : List Reminder) (now : Int) (x : Reminder) :
    x ∈ get_due_reminders st now ↔ x ∈ st ∧ x.sent = false ∧ x.due_time ≤ now := by
  rw [get_due_reminders, List.mem_filter]
  simp [and_assoc]

/-- Membership in `get_upcoming_reminders`, unfolded. -/
theorem mem_get_upcoming (st : List Reminder) (now : Int) (x : Reminder) :
    x ∈ get_upcoming_reminders st now ↔ x ∈ st ∧ x.sent = false ∧ now < x.due_time := by
  rw [get_upcoming_reminders, List.mem_insertionSort, List.mem_filter]
  simp [and_assoc]

/-- C4: `get_upcoming` returns exactly the unsent reminders strictly in the
future, sorted ascending by `due_time`.  (The read path is a pure function
of the store in this embedding, mirroring the read-lock-only Rust path.) -/
theorem c4_get_upcoming_spec (st : List Reminder) (now : Int) :
    List.Perm (get_upcoming_reminders st now)
      (st.filter fun r => !r.sent && decide (now < r.due_time)) ∧
    List.Pairwise (fun a b : Reminder => a.due_time ≤ b.due_time)
      (get_upcoming_reminders st now) ∧
    ∀ x ∈ get_upcoming_reminders st now, x ∈ st ∧ x.sent = false ∧ now < x.due_time := by
  refine ⟨List.perm_insertionSort dueLe _, List.sorted_insertionSort dueLe _, ?_⟩
  intro x hx
  exact (mem_get_upcoming st now x).mp hx

/-- Witness for C4 at a concrete one-element store. -/
theorem c4_witness :
    Reminder.mk "a" "m" 10 none false 0 none ∈ [Reminder.mk "a" "m" 10 none false 0 none] ∧
    (Reminder.mk "a" "m" 10 none false 0 none).sent = false ∧
    (5 : Int) < (Reminder.mk "a" "m" 10 none false 0 none).due_time :=
  (c4_get_upcoming_spec [Reminder.mk "a" "m" 10 none false 0 none] 5).2.2
    (Reminder.mk "a" "m" 10 none false 0 none) (by decide)

/-- C10: no reminder is both due and upcoming, and every stored unsent
reminder is exactly one of the two. -/
theorem c10_due_upcoming_partition (st : List Reminder) (now : Int) :
    (∀ x, ¬(x ∈ get_due_reminders st now ∧ x ∈ get_upcoming_reminders st now)) ∧
    ∀ x ∈ st, x.sent = false →
      (x ∈ get_due_reminders st now ∧ x ∉ get_upcoming_reminders st now) ∨
      (x ∉ get_due_reminders st now ∧ x ∈ get_upcoming_reminders st now) := by
  constructor
  · rintro x ⟨h1, h2⟩
    rw [mem_get_due] at h1
    rw [mem_get_upcoming] at h2
    omega
  · intro x hx hs
    rcases le_or_lt x.due_time now with h | h
    · refine Or.inl ⟨(mem_get_due st now x).mpr ⟨hx, hs, h⟩, fun hc => ?_⟩
      rw [mem_get_upcoming] at hc
      omega
    · refine Or.inr ⟨fun hc => ?_, (mem_get_upcoming st now x).mpr ⟨hx, hs, h⟩⟩
      rw [mem_get_due] at hc
      omega

/-- Witness for C10 at a concrete two-element store. -/
theorem c10_witness :
    (Reminder.mk "a" "m" 3 none false 0 none ∈
        get_due_reminders
          [Reminder.mk "a" "m" 3 none false 0 none, Reminder.mk "b" "m" 9 none false 0 none] 5 ∧
      Reminder.mk "a" "m" 3 none false 0 none ∉
        get_upcoming_reminders
          [Reminder.mk "a" "m" 3 none false 0 none, Reminder.mk "b" "m" 9 none false 0 none] 5) ∨
    (Reminder.mk "a" "m" 3 none false 0 none ∉
        get_due_reminders
          [Reminder.mk "a" "m" 3 none false 0 none, Reminder.mk "b" "m" 9 none false 0 none] 5 ∧
      Reminder.mk "a" "m" 3 none false 0 none ∈
        get_upcoming_reminders
          [Reminder.mk "a" "m" 3 none false 0 none, Reminder.mk "b" "m" 9 none false 0 none] 5) :=
  (c10_due_upcoming_partition
      [Reminder.mk "a" "m" 3 none false 0 none, Reminder.mk "b" "m" 9 none false 0 none] 5).2
    (Reminder.mk "a" "m" 3 none false 0 none) (by decide) (by decide)

/-- C7: under unique ids, `mark_as_sent` rewrites exactly the matching
record to `{·_ with sent := true}` and `reschedule_reminder` to
`{· with due_time := t, sent := false}`, leaving every other record (and
every other field) untouched; an absent id is a global no-op. -/
theorem c7_mark_reschedule_frame (st : List Reminder) (i : String) (t : Int)
    (hu : (st.map Reminder.id).Nodup) :
    mark_as_sent st i = st.map (fun x => if x.id = i then { x with sent := true } else x) ∧
    reschedule_reminder st i t =
      st.map (fun x => if x.id = i then { x with due_time := t, sent := false } else x) ∧
    ((∀ x ∈ st, x.id ≠ i) → mark_as_sent st i = st ∧ reschedule_reminder st i t = st) := by
  refine ⟨?_, ?_, ?_⟩
  · induction st with
    | nil => rfl
    | cons r rest ih =>
      simp only [List.map_cons, List.nodup_cons] at hu
      by_cases h : r.id = i
      · have hrest : rest.map (fun x => if x.id = i then { x with sent := true } else x) = rest := by
          have hcong : ∀ x ∈ rest, (if x.id = i then { x with sent := true } else x) = x := by
            intro x hx
            have hxid : x.id ≠ i := by
              intro he
              apply hu.1
              have hrx : r.id = x.id := by rw [h, he]
              rw [hrx]
              exact List.mem_map_of_mem Reminder.id hx
            rw [if_neg hxid]
          rw [List.map_congr_left hcong]
          simp
        simp only [mark_as_sent, if_pos h, List.map_cons, hrest]
      · simp only [mark_as_sent, if_neg h, List.map_cons, ih hu.2]
  · induction st with
    | nil => rfl
    | cons r rest ih =>
      simp only [List.map_cons, List.nodup_cons] at hu
      by_cases h : r.id = i
      · have hrest : rest.map
            (fun x => if x.id = i then { x with due_time := t, sent := false } else x) = rest := by
          have hcong : ∀ x ∈ rest,
              (if x.id = i then { x with due_time := t, sent := false } else x) = x := by
            intro x hx
            have hxid : x.id ≠ i := by
              intro he
              apply hu.1
              have hrx : r.id = x.id := by rw [h, he]
              rw [hrx]
              exact List.mem_map_of_mem Reminder.id hx
            rw [if_neg hxid]
          rw [List.map_congr_left hcong]
          simp
        simp only [reschedule_reminder, if_pos h, List.map_cons, hrest]
      · simp only [reschedule_reminder, if_neg h, List.map_cons, ih hu.2]
  · intro habs
    constructor
    · induction st with
      | nil => rfl
      | cons r rest ih =>
        simp only [List.map_cons, List.nodup_cons] at hu
        rw [mark_as_sent, if_neg (habs r (List.mem_cons_self r rest))]
        rw [ih hu.2 (fun x hx => habs x (List.mem_cons_of_mem r hx))]
    · induction st with
      | nil => rfl
      | cons r rest ih =>
        simp only [List.map_cons, List.nodup_cons] at hu
        rw [reschedule_reminder, if_neg (habs r (List.mem_cons_self r rest))]
        rw [ih hu.2 (fun x hx => habs x (List.mem_cons_of_mem r hx))]

/-- Witness for C7 at a concrete two-element store. -/
theorem c7_witness :
    mark_as_sent
        [Reminder.mk "a" "m" 3 none false 0 none, Reminder.mk "b" "m" 9 none false 0 none] "b" =
      List.map (fun x => if x.id = "b" then { x with sent := true } else x)
        [Reminder.mk "a" "m" 3 none false 0 none, Reminder.mk "b" "m" 9 none false 0 none] :=
  (c7_mark_reschedule_frame
      [Reminder.mk "a" "m" 3 none false 0 none, Reminder.mk "b" "m" 9 none false 0 none]
      "b" 7 (by decide)).1

/-! ### The C3 acceptance characterization -/

theorem parseDigits_digits : ∀ (cs : List Char) (acc n : Nat),
    parseDigits cs acc = some n → ∀ c ∈ cs, (digitVal c).isSome := by
  intro cs
  induction cs with
  | nil =>
    intro acc n _ c hc
    cases hc
  | cons c0 cs ih =>
    intro acc n h c hc
    rw [parseDigits] at h
    cases hd : digitVal c0 with
    | none =>
      rw [hd] at h
      cases h
    | some d =>
      rw [hd] at h
      rcases List.mem_cons.mp hc with rfl | hc
      · rw [hd]
        rfl
      · exact ih _ _ h c hc

theorem parseNat_digits {s : List Char} {n : Nat} (h : parseNat s = some n) :
    ∀ c ∈ s, (digitVal c).isSome := by
  cases s with
  | nil =>
    intro c hc
    cases hc
  | cons c0 cs =>
    rw [parseNat] at h
    exact parseDigits_digits _ _ _ h

theorem parseI64_chars {s : List Char} {m : Int} (h : parseI64 s = some m) :
    ∀ c ∈ s, (digitVal c).isSome ∨ c = '+' ∨ c = '-' := by
  cases s with
  | nil =>
    intro c hc
    cases hc
  | cons c0 rest =>
    rw [parseI64] at h
    by_cases h1 : c0 = '+'
    · rw [if_pos h1] at h
      cases hp : parseNat rest with
      | none =>
        rw [hp] at h
        simp at h
      | some n =>
        intro c hc
        rcases List.mem_cons.mp hc with rfl | hc
        · exact Or.inr (Or.inl h1)
        · exact Or.inl (parseNat_digits hp c hc)
    · rw [if_neg h1] at h
      by_cases h2 : c0 = '-'
      · rw [if_pos h2] at h
        cases hp : parseNat rest with
        | none =>
          rw [hp] at h
          simp at h
        | some n =>
          intro c hc
          rcases List.mem_cons.mp hc with rfl | hc
          · exact Or.inr (Or.inr h2)
          · exact Or.inl (parseNat_digits hp c hc)
      · rw [if_neg h2] at h
        cases hp : parseNat (c0 :: rest) with
        | none =>
          rw [hp] at h
          simp at h
        | some n =>
          intro c hc
          exact Or.inl (parseNat_digits hp c hc)

theorem asciiToLower_ne_s {c : Char}
    (hc : (digitVal c).isSome ∨ c = '+' ∨ c = '-') : asciiToLower c ≠ 's' := by
  rcases hc with hd | rfl | rfl
  · have hrange : '0' ≤ c ∧ c ≤ '9' := by
      by_cases h : '0' ≤ c ∧ c ≤ '9'
      · exact h
      · rw [digitVal, if_neg h] at hd
        cases hd
    have hna : ¬('A' ≤ c ∧ c ≤ 'Z') := by
      rintro ⟨hA, _⟩
      exact absurd (le_trans hA hrange.2) (by decide)
    rw [asciiToLower, if_neg hna]
    intro he
    rw [he] at hrange
    exact absurd hrange.2 (by decide)
  · decide
  · decide

/-- A string that parses as an `i64` cannot end (case-insensitively) in
`"minutes"`: all its characters are digits or a sign. -/
theorem parseI64_not_minutes_suffix {s : List Char} {m : Int}
    (h : parseI64 s = some m) : ¬ minutesChars.isSuffixOf (lowerStr s) := by
  intro hsuf
  have hsub : minutesChars ⊆ lowerStr s :=
    (List.isSuffixOf_iff_suffix.mp hsuf).subset
  have hs : 's' ∈ lowerStr s := hsub (by decide)
  rw [lowerStr, List.mem_map] at hs
  obtain ⟨c, hc, hlc⟩ := hs
  exact asciiToLower_ne_s (parseI64_chars h c hc) hlc

/-- The amended acceptance predicate, written from the amended claim's
words: `daily`/`weekly` case-insensitively; a bare integer parsing to a
positive `i64`; or a string whose lowercase form ends with `"minutes"`
and which, after stripping all trailing occurrences of the literal
(lowercase) `"minutes"` and trimming whitespace around the numeric part,
parses to a positive `i64`. -/
def amendedAccepts (s : List Char) : Prop :=
  lowerStr s = "daily".data ∨ lowerStr s = "weekly".data ∨
  (∃ m : Int, parseI64 s = some m ∧ 0 < m) ∨
  (minutesChars.isSuffixOf (lowerStr s) ∧
    ∃ m : Int, parseI64 (trimChars (trimEndMinutes s)) = some m ∧ 0 < m)

/-- `validateRecurrence` accepts exactly `amendedAccepts`, and every
rejection is one of the two validation errors. -/
theorem validate_cases (s : List Char) :
    (validateRecurrence s = Except.ok () ∧ amendedAccepts s) ∨
    ((validateRecurrence s = Except.error StoreError.invalidRecurrence ∨
        validateRecurrence s = Except.error StoreError.nonPositiveInterval) ∧
      ¬amendedAccepts s) := by
  by_cases h1 : lowerStr s = "daily".data ∨ lowerStr s = "weekly".data
  · left
    constructor
    · simp only [validateRecurrence]
      rw [if_pos h1]
    · rcases h1 with h1 | h1
      · exact Or.inl h1
      · exact Or.inr (Or.inl h1)
  · have hnd : ¬(lowerStr s = "daily".data ∨ lowerStr s = "weekly".data) := h1
    cases hp : parseI64 s with
    | some m =>
      by_cases hle : m ≤ 0
      · right
        constructor
        · right
          simp only [validateRecurrence]
          rw [if_neg hnd, hp]
          dsimp only
          rw [if_pos hle]
        · rintro (h | h | ⟨m', hm', hpos⟩ | ⟨hsuf, _⟩)
          · exact hnd (Or.inl h)
          · exact hnd (Or.inr h)
          · rw [hp] at hm'
            cases hm'
            omega
          · exact parseI64_not_minutes_suffix hp hsuf
      · left
        constructor
        · simp only [validateRecurrence]
          rw [if_neg hnd, hp]
          dsimp only
          rw [if_neg hle]
        · exact Or.inr (Or.inr (Or.inl ⟨m, hp, by omega⟩))
    | none =>
      by_cases hsuf : minutesChars.isSuffixOf (lowerStr s)
      · cases hq : parseI64 (trimChars (trimEndMinutes s)) with
        | some m =>
          by_cases hpos : 0 < m
          · left
            constructor
            · simp only [validateRecurrence]
              rw [if_neg hnd, hp]
              dsimp only
              rw [if_pos hsuf, hq]
              dsimp only
              rw [if_pos hpos]
            · exact Or.inr (Or.inr (Or.inr ⟨hsuf, m, hq, hpos⟩))
          · right
            constructor
            · right
              simp only [validateRecurrence]
              rw [if_neg hnd, hp]
              dsimp only
              rw [if_pos hsuf, hq]
              dsimp only
              rw [if_neg hpos]
            · rintro (h | h | ⟨m', hm', hpos'⟩ | ⟨_, m', hm', hpos'⟩)
              · exact hnd (Or.inl h)
              · exact hnd (Or.inr h)
              · rw [hp] at hm'
                cases hm'
              · rw [hq] at hm'
                cases hm'
                omega
        | none =>
          right
          constructor
          · left
            simp only [validateRecurrence]
            rw [if_neg hnd, hp]
            dsimp only
            rw [if_pos hsuf, hq]
          · rintro (h | h | ⟨m', hm', _⟩ | ⟨_, m', hm', _⟩)
            · exact hnd (Or.inl h)
            · exact hnd (Or.inr h)
            · rw [hp] at hm'
              cases hm'
            · rw [hq] at hm'
              cases hm'
      · right
        constructor
        · left
          simp only [validateRecurrence]
          rw [if_neg hnd, hp]
          dsimp only
          rw [if_neg hsuf]
        · rintro (h | h | ⟨m', hm', _⟩ | ⟨hsuf', _⟩)
          · exact hnd (Or.inl h)
          · exact hnd (Or.inr h)
          · rw [hp] at hm'
            cases hm'
          · exact hsuf hsuf'

/-- C3 counterexample: `"60MINUTES"` is a positive integer followed by the
case-insensitive suffix `"minutes"` (so the claim says it is accepted),
yet ingestion rejects it and stores nothing: the branch test lowercases
but the suffix strip is case-sensitive on the original string. -/
theorem c3_counterexample :
    ("60MINUTES".data = "60".data ++ "MINUTES".data ∧
      lowerStr "MINUTES".data = "minutes".data ∧
      parseI64 "60".data = some 60 ∧ (0 : Int) < 60) ∧
    validateRecurrence "60MINUTES".data = Except.error StoreError.invalidRecurrence ∧
    create_reminder [] (CreateReminderRequest.mk "m" 0 none (some "60MINUTES")) "a" 0 true =
      (Except.error StoreError.invalidRecurrence, []) := by
  refine ⟨⟨by decide, by decide, by decide, by decide⟩, by decide, by decide⟩

/-- C3 (amended): with the message non-blank, `create_reminder` accepts a
present recurrence exactly on `amendedAccepts` (storing the new record),
otherwise fails with one of the two validation errors and stores nothing;
`"0"` and `"-5 minutes"` are rejected, `"60minutes"` is accepted and
equivalent to 60 minutes. -/
theorem c3_create_validation (st : List Reminder) (req : CreateReminderRequest)
    (newId : String) (createdAt : Int) (s : String)
    (hrec : req.recurrence = some s) (hmsg : trimChars req.message.data ≠ []) :
    (amendedAccepts s.data →
      create_reminder st req newId createdAt true =
        (Except.ok
          (Reminder.mk newId req.message req.due_time req.username false createdAt (some s)),
         st ++ [Reminder.mk newId req.message req.due_time req.username false createdAt (some s)])) ∧
    (¬amendedAccepts s.data →
      ∃ e, (e = StoreError.invalidRecurrence ∨ e = StoreError.nonPositiveInterval) ∧
        create_reminder st req newId createdAt true = (Except.error e, st)) ∧
    validateRecurrence "0".data = Except.error StoreError.nonPositiveInterval ∧
    validateRecurrence "-5 minutes".data = Except.error StoreError.nonPositiveInterval ∧
    validateRecurrence "60minutes".data = Except.ok () ∧
    customMinutes (lowerStr "60minutes".data) = some 60 := by
  refine ⟨?_, ?_, by decide, by decide, by decide, by decide⟩
  · intro hacc
    rcases validate_cases s.data with ⟨hok, _⟩ | ⟨_, hnacc⟩
    · simp only [create_reminder]
      rw [if_neg hmsg, hrec]
      dsimp only
      rw [hok]
      rfl
    · exact absurd hacc hnacc
  · intro hnacc
    rcases validate_cases s.data with ⟨_, hacc⟩ | ⟨herr, _⟩
    · exact absurd hacc hnacc
    · rcases herr with herr | herr
      · refine ⟨StoreError.invalidRecurrence, Or.inl rfl, ?_⟩
        simp only [create_reminder]
        rw [if_neg hmsg, hrec]
        dsimp only
        rw [herr]
      · refine ⟨StoreError.nonPositiveInterval, Or.inr rfl, ?_⟩
        simp only [create_reminder]
        rw [if_neg hmsg, hrec]
        dsimp only
        rw [herr]

/-- Witness for C3 (amended): `"60minutes"` is accepted and stored. -/
theorem c3_witness :
    create_reminder [] (CreateReminderRequest.mk "m" 0 none (some "60minutes")) "a" 0 true =
      (Except.ok (Reminder.mk "a" "m" 0 none false 0 (some "60minutes")),
       [] ++ [Reminder.mk "a" "m" 0 none false 0 (some "60minutes")]) :=
  (c3_create_validation [] (CreateReminderRequest.mk "m" 0 none (some "60minutes")) "a" 0
      "60minutes" rfl (by decide)).1
    (Or.inr (Or.inr (Or.inr ⟨by decide, 60, by decide, by decide⟩)))

/-! ### Scanner invariant for C2 -/

/-- Every record carrying id `i` is marked sent and one-shot. -/
def sentForever (i : String) (st : List Reminder) : Prop :=
  ∀ x ∈ st, x.id = i → x.sent = true ∧ x.recurrence = none

/-- `mark_as_sent` changes no record's id or recurrence. -/
theorem mark_as_sent_idrec (st : List Reminder) (i : String) :
    (mark_as_sent st i).map (fun x => (x.id, x.recurrence)) =
      st.map (fun x => (x.id, x.recurrence)) := by
  induction st with
  | nil => rfl
  | cons r rest ih =>
    by_cases h : r.id = i
    · simp [mark_as_sent, h]
    · simp [mark_as_sent, h, ih]

/-- `reschedule_reminder` changes no record's id or recurrence. -/
theorem reschedule_reminder_idrec (st : List Reminder) (i : String) (t : Int) :
    (reschedule_reminder st i t).map (fun x => (x.id, x.recurrence)) =
      st.map (fun x => (x.id, x.recurrence)) := by
  induction st with
  | nil => rfl
  | cons r rest ih =>
    by_cases h : r.id = i
    · simp [reschedule_reminder, h]
    · simp [reschedule_reminder, h, ih]

theorem scanStep_idrec (now : Int) (acc : List Reminder) (e : Reminder) :
    (scanStep now acc e).map (fun x => (x.id, x.recurrence)) =
      acc.map (fun x => (x.id, x.recurrence)) := by
  unfold scanStep
  cases calculate_next_occurrence e now with
  | none => exact mark_as_sent_idrec acc e.id
  | some t => exact reschedule_reminder_idrec acc e.id t

theorem foldl_scanStep_idrec (now : Int) (d : List Reminder) :
    ∀ acc, (d.foldl (scanStep now) acc).map (fun x => (x.id, x.recurrence)) =
      acc.map (fun x => (x.id, x.recurrence)) := by
  induction d with
  | nil =>
    intro acc
    rfl
  | cons e d ih =>
    intro acc
    rw [List.foldl_cons, ih, scanStep_idrec]

theorem ids_of_idrec {st st' : List Reminder}
    (hmap : st'.map (fun x => (x.id, x.recurrence)) = st.map (fun x => (x.id, x.recurrence))) :
    st'.map Reminder.id = st.map Reminder.id := by
  have h := congrArg (List.map Prod.fst) hmap
  simpa [List.map_map, Function.comp] using h

theorem recNone_of_idrec (i : String) {st st' : List Reminder}
    (hmap : st'.map (fun x => (x.id, x.recurrence)) = st.map (fun x => (x.id, x.recurrence)))
    (hR : ∀ y ∈ st, y.id = i → y.recurrence = none) :
    ∀ y ∈ st', y.id = i → y.recurrence = none := by
  intro y hy hyid
  have hmem : (y.id, y.recurrence) ∈ st.map (fun x => (x.id, x.recurrence)) := by
    rw [← hmap]
    exact List.mem_map_of_mem _ hy
  rw [List.mem_map] at hmem
  obtain ⟨z, hz, hze⟩ := hmem
  have h2 : z.recurrence = y.recurrence := congrArg Prod.snd hze
  rw [← h2]
  exact hR z hz ((congrArg Prod.fst hze).trans hyid)

theorem sentForever_mark (i j : String) :
    ∀ st, sentForever i st → sentForever i (mark_as_sent st j) := by
  intro st
  induction st with
  | nil =>
    intro _ x hx
    cases hx
  | cons r rest ih =>
    intro hS x hx hxid
    have hStail : sentForever i rest := fun y hy => hS y (List.mem_cons_of_mem r hy)
    rw [mark_as_sent] at hx
    by_cases h : r.id = j
    · rw [if_pos h] at hx
      rcases List.mem_cons.mp hx with rfl | hx
      · exact ⟨rfl, (hS r (List.mem_cons_self r rest) hxid).2⟩
      · exact hS x (List.mem_cons_of_mem r hx) hxid
    · rw [if_neg h] at hx
      rcases List.mem_cons.mp hx with rfl | hx
      · exact hS x (List.mem_cons_self x rest) hxid
      · exact ih hStail x hx hxid

theorem sentForever_reschedule (i j : String) (t : Int) (hji : j ≠ i) :
    ∀ st, sentForever i st → sentForever i (reschedule_reminder st j t) := by
  intro st
  induction st with
  | nil =>
    intro _ x hx
    cases hx
  | cons r rest ih =>
    intro hS x hx hxid
    have hStail : sentForever i rest := fun y hy => hS y (List.mem_cons_of_mem r hy)
    rw [reschedule_reminder] at hx
    by_cases h : r.id = j
    · rw [if_pos h] at hx
      rcases List.mem_cons.mp hx with rfl | hx
      · exact absurd (h.symm.trans hxid) hji
      · exact hS x (List.mem_cons_of_mem r hx) hxid
    · rw [if_neg h] at hx
      rcases List.mem_cons.mp hx with rfl | hx
      · exact hS x (List.mem_cons_self x rest) hxid
      · exact ih hStail x hx hxid

theorem sentForever_foldl (i : String) (now : Int) :
    ∀ (d : List Reminder) (acc : List Reminder), (∀ e ∈ d, e.id ≠ i) →
      sentForever i acc → sentForever i (d.foldl (scanStep now) acc) := by
  intro d
  induction d with
  | nil =>
    intro acc _ hS
    exact hS
  | cons e d ih =>
    intro acc hne hS
    rw [List.foldl_cons]
    apply ih _ (fun x hx => hne x (List.mem_cons_of_mem e hx))
    unfold scanStep
    cases calculate_next_occurrence e now with
    | none => exact sentForever_mark i e.id acc hS
    | some t => exact sentForever_reschedule i e.id t (hne e (List.mem_cons_self e d)) acc hS

/-- Marking the unique record with id `i`, whose recurrence is `none`,
establishes the invariant. -/
theorem sentForever_mark_establish (i : String) :
    ∀ st, (st.map Reminder.id).Nodup →
      (∀ y ∈ st, y.id = i → y.recurrence = none) →
      sentForever i (mark_as_sent st i) := by
  intro st
  induction st with
  | nil =>
    intro _ _ x hx
    cases hx
  | cons r rest ih =>
    intro hu hR x hx hxid
    simp only [List.map_cons, List.nodup_cons] at hu
    rw [mark_as_sent] at hx
    by_cases h : r.id = i
    · rw [if_pos h] at hx
      rcases List.mem_cons.mp hx with rfl | hx
      · exact ⟨rfl, hR r (List.mem_cons_self r rest) h⟩
      · exfalso
        apply hu.1
        rw [show r.id = x.id from h.trans hxid.symm]
        exact List.mem_map_of_mem Reminder.id hx
    · rw [if_neg h] at hx
      rcases List.mem_cons.mp hx with rfl | hx
      · exact absurd hxid h
      · exact ih hu.2 (fun y hy => hR y (List.mem_cons_of_mem r hy)) x hx hxid

/-- The establishing tick: a due one-shot reminder is marked sent, and no
other transition of the same tick unmarks it. -/
theorem scanTick_marks (st : List Reminder) (now : Int) (r : Reminder)
    (hu : (st.map Reminder.id).Nodup) (hr : r ∈ st) (hrec : r.recurrence = none)
    (hsent : r.sent = false) (hdue : r.due_time ≤ now) :
    sentForever r.id (scanTick st now) := by
  have hrd : r ∈ get_due_reminders st now := (mem_get_due st now r).mpr ⟨hr, hsent, hdue⟩
  obtain ⟨d1, d2, hd⟩ := List.append_of_mem hrd
  have hR : ∀ y ∈ st, y.id = r.id → y.recurrence = none := by
    intro y hy hyid
    rw [List.inj_on_of_nodup_map hu hy hr hyid]
    exact hrec
  have hIds : ((get_due_reminders st now).map Reminder.id).Nodup :=
    List.Nodup.sublist (List.Sublist.map Reminder.id (List.filter_sublist st)) hu
  rw [scanTick, hd, List.foldl_append, List.foldl_cons]
  have hmap0 : (List.foldl (scanStep now) st d1).map (fun x => (x.id, x.recurrence)) =
      st.map (fun x => (x.id, x.recurrence)) := foldl_scanStep_idrec now d1 st
  have hu0 : ((List.foldl (scanStep now) st d1).map Reminder.id).Nodup := by
    rw [ids_of_idrec hmap0]
    exact hu
  have hR0 : ∀ y ∈ List.foldl (scanStep now) st d1, y.id = r.id → y.recurrence = none :=
    recNone_of_idrec r.id hmap0 hR
  have hstep : scanStep now (List.foldl (scanStep now) st d1) r =
      mark_as_sent (List.foldl (scanStep now) st d1) r.id := by
    unfold scanStep
    rw [show calculate_next_occurrence r now = none from by
      simp only [calculate_next_occurrence, hrec]]
  rw [hstep]
  have hS1 : sentForever r.id (mark_as_sent (List.foldl (scanStep now) st d1) r.id) :=
    sentForever_mark_establish r.id _ hu0 hR0
  have hne2 : ∀ e ∈ d2, e.id ≠ r.id := by
    rw [hd] at hIds
    simp only [List.map_append, List.map_cons] at hIds
    have hcons : (r.id :: d2.map Reminder.id).Nodup := (List.nodup_append.mp hIds).2.1
    have hnotin : r.id ∉ d2.map Reminder.id := (List.nodup_cons.mp hcons).1
    intro e he heid
    apply hnotin
    rw [← heid]
    exact List.mem_map_of_mem Reminder.id he
  exact sentForever_foldl r.id now d2 _ hne2 hS1

/-- Later ticks never touch a record protected by the invariant: such a
record is never due, and transitions keyed on other ids preserve it. -/
theorem scanTick_preserves (i : String) (st : List Reminder) (now : Int)
    (hS : sentForever i st) : sentForever i (scanTick st now) := by
  rw [scanTick]
  apply sentForever_foldl i now _ _ _ hS
  intro e he heid
  have hmem := (mem_get_due st now e).mp he
  have h1 : e.sent = false := hmem.2.1
  have h2 : e.sent = true := (hS e hmem.1 heid).1
  rw [h1] at h2
  cases h2

theorem sentForever_ticks (i : String) :
    ∀ (nows : List Int) (st : List Reminder), sentForever i st →
      sentForever i (nows.foldl scanTick st) := by
  intro nows
  induction nows with
  | nil =>
    intro st hS
    exact hS
  | cons n ns ih =>
    intro st hS
    exact ih _ (scanTick_preserves i st n hS)

/-- C2: once the scanner observes a one-shot reminder due and marks it,
its record is sent, and after any sequence of later ticks it appears in
neither `get_due` nor `get_upcoming` at any `now`. -/
theorem c2_one_shot_stays_sent (st : List Reminder) (r : Reminder) (now0 : Int)
    (nows : List Int) (hu : (st.map Reminder.id).Nodup) (hr : r ∈ st)
    (hrec : r.recurrence = none) (hsent : r.sent = false) (hdue : r.due_time ≤ now0) :
    ∀ x ∈ nows.foldl scanTick (scanTick st now0), x.id = r.id →
      x.sent = true ∧
      ∀ now, x ∉ get_due_reminders (nows.foldl scanTick (scanTick st now0)) now ∧
        x ∉ get_upcoming_reminders (nows.foldl scanTick (scanTick st now0)) now := by
  have hS : sentForever r.id (nows.foldl scanTick (scanTick st now0)) :=
    sentForever_ticks r.id nows _ (scanTick_marks st now0 r hu hr hrec hsent hdue)
  intro x hx hxid
  have hxs := hS x hx hxid
  refine ⟨hxs.1, fun now => ⟨fun hc => ?_, fun hc => ?_⟩⟩
  · have hmem := (mem_get_due _ now x).mp hc
    have h1 := hmem.2.1
    rw [hxs.1] at h1
    cases h1
  · have hmem := (mem_get_upcoming _ now x).mp hc
    have h1 := hmem.2.1
    rw [hxs.1] at h1
    cases h1

/-- Witness for C2: a one-shot reminder due at 3, scanned at 5, then a
further tick at 8; its record is sent and listed nowhere at now = 100. -/
theorem c2_witness :
    (Reminder.mk "a" "m" 3 none true 0 none).sent = true ∧
    (Reminder.mk "a" "m" 3 none true 0 none ∉
        get_due_reminders
          (List.foldl scanTick (scanTick [Reminder.mk "a" "m" 3 none false 0 none] 5) [8]) 100 ∧
      Reminder.mk "a" "m" 3 none true 0 none ∉
        get_upcoming_reminders
          (List.foldl scanTick (scanTick [Reminder.mk "a" "m" 3 none false 0 none] 5) [8]) 100) := by
  have h := c2_one_shot_stays_sent [Reminder.mk "a" "m" 3 none false 0 none]
    (Reminder.mk "a" "m" 3 none false 0 none) 5 [8] (by decide) (by decide) rfl rfl (by decide)
    (Reminder.mk "a" "m" 3 none true 0 none) (by decide) rfl
  exact ⟨h.1, h.2 100⟩

/-- C9: reloading a saved snapshot reproduces the collection exactly. -/
theorem c9_snapshot_roundtrip (rs : List Reminder) :
    storage_new (some (save_to_disk rs)) = some rs := by
  have hdec : ∀ r : Reminder, decodeReminder (encodeReminder r) = some r := by
    intro r
    obtain ⟨id, msg, dt, u, sentFlag, ca, rec0⟩ := r
    cases u <;> cases rec0 <;> rfl
  show decodeReminders (rs.map encodeReminder) = some rs
  induction rs with
  | nil => rfl
  | cons r rs ih =>
    simp only [List.map_cons, decodeReminders, hdec r, ih]

end ReminderSvc
